import Mathlib

/-!
Verification development for the resume-matching service
(`src/api/index.py` and `src/resume_versel/app.py`).

Texts are modelled as `List Char` (Python `str`), byte payloads as
`List ℕ`, real-number arithmetic as `ℚ`, and Python integers as `ℤ`.
External collaborators of the core (the PDF/DOCX text extractors, the
LLM chain, `json.loads`, and the best-effort candidate name/email
regex helpers, which the spec scopes out as plumbing) are supplied as
function parameters gathered in an `Env`; everything with decision
logic is translated from the source.
-/

/-- Python/JSON values, as produced by `json.loads` and consumed with
Python truthiness (`default_value or {}`), `dict.get`, `int(...)`. -/
inductive PyVal where
  | none
  | bool (b : Bool)
  | int (n : ℤ)
  | float (q : ℚ)
  | str (s : String)
  | list (xs : List PyVal)
  | dict (entries : List (String × PyVal))

/-- Python truthiness of a `PyVal`. -/
def truthy : PyVal → Bool
  | .none => false
  | .bool b => b
  | .int n => n != 0
  | .float q => q != 0
  | .str s => s != ""
  | .list xs => !xs.isEmpty
  | .dict es => !es.isEmpty

/-- Python `dict.get(k, d)`; `Option.none` models the `AttributeError`
raised when `.get` is called on a non-dict value. -/
def pyGet : PyVal → String → PyVal → Option PyVal
  | .dict es, k, d => some ((es.lookup k).getD d)
  | _, _, _ => Option.none

/-- Truncation of a rational toward zero, as Python `int(float)`. -/
def ratTrunc (q : ℚ) : ℤ := if 0 ≤ q then ⌊q⌋ else -⌊-q⌋

/-- Digits of a decimal numeral folded into a natural number. -/
def digitsToNat (ds : List Char) : ℕ :=
  ds.foldl (fun n c => 10 * n + (c.toNat - Char.toNat '0')) 0

/-- Python `int(...)` applied to a JSON-decoded value: integers pass
through, floats truncate toward zero, booleans map to 0/1, numeric
strings (optional sign, decimal digits) parse; anything else raises,
modelled as `Option.none`. -/
def pyInt : PyVal → Option ℤ
  | .int n => some n
  | .float q => some (ratTrunc q)
  | .bool b => some (if b then 1 else 0)
  | .str s =>
    let cs := (s.toList.dropWhile Char.isWhitespace).reverse.dropWhile Char.isWhitespace |>.reverse
    match cs with
    | '-' :: ds => if ds ≠ [] ∧ ds.all Char.isDigit then some (-(digitsToNat ds : ℤ)) else Option.none
    | ds => if ds ≠ [] ∧ ds.all Char.isDigit then some (digitsToNat ds : ℤ) else Option.none
  | _ => Option.none

/-- Python regex `\w` for the ASCII texts the service handles. -/
def isWordChar (c : Char) : Bool := c.isAlpha || c.isDigit || c == '_'

/-- Python `str.lower()` on an ASCII text. -/
def lowerChars (cs : List Char) : List Char := cs.map Char.toLower

/-- Python `str.strip()`. -/
def pyStrip (cs : List Char) : List Char :=
  ((cs.dropWhile Char.isWhitespace).reverse.dropWhile Char.isWhitespace).reverse

/-- Worker for `wordTokens`: `acc` holds the reversed current run of
word characters. -/
def splitRunsAux : List Char → List Char → List (List Char)
  | [], acc => if acc.isEmpty then [] else [acc.reverse]
  | c :: rest, acc =>
    if isWordChar c then splitRunsAux rest (c :: acc)
    else if acc.isEmpty then splitRunsAux rest []
    else acc.reverse :: splitRunsAux rest []

/-- Tokenization regex `re.findall` with pattern backslash-b
backslash-w-plus backslash-b: the maximal runs of word characters of
`text`, in order. -/
def wordTokens (cs : List Char) : List (List Char) := splitRunsAux cs []

/-- Stop-word set `STOP_WORDS` of `src/resume_versel/app.py`. -/
def STOP_WORDS : List (List Char) :=
  (["and", "the", "of", "in", "to", "a", "with", "for", "on",
    "is", "are", "that", "by", "as", "this", "an", "or", "at",
    "from", "it", "be", "which", "you", "we"]).map String.toList

/-- Skill vocabulary `KNOWN_SKILLS` of `src/resume_versel/app.py`. -/
def KNOWN_SKILLS : List (List Char) :=
  (["python", "java", "sql", "excel", "machine learning", "deep learning",
    "communication", "teamwork", "project management", "docker", "aws",
    "javascript", "react", "nodejs", "git", "linux"]).map String.toList

/-- Lexicographic order on code points, as Python string `<=`. -/
def lexLe : List Char → List Char → Bool
  | [], _ => true
  | _ :: _, [] => false
  | a :: as, b :: bs =>
    if a.val < b.val then true
    else if b.val < a.val then false
    else lexLe as bs

/-- One insertion step of insertion sort by `lexLe`. -/
def insertSorted (a : List Char) : List (List Char) → List (List Char)
  | [] => [a]
  | b :: bs => if lexLe a b then a :: b :: bs else b :: insertSorted a bs

/-- Python `sorted` on a list of strings (insertion sort by `lexLe`). -/
def pySorted : List (List Char) → List (List Char)
  | [] => []
  | a :: as => insertSorted a (pySorted as)

namespace App

/-- The skill set a text contributes in
`src/resume_versel/app.py::get_hard_match_score`: the deduplicated
word tokens of the lowercased text that avoid `STOP_WORDS` and lie in
`KNOWN_SKILLS`.  The list is duplicate-free and stands for the Python
set comprehension. -/
def skillTokens (text : List Char) : List (List Char) :=
  ((wordTokens (lowerChars text)).dedup).filter
    (fun w => !(STOP_WORDS.contains w) && KNOWN_SKILLS.contains w)

/-- Function `get_hard_match_score` of `src/resume_versel/app.py`
(vocabulary-based variant): returns `(score, matched, missing)`. -/
def get_hard_match_score (resume_text jd_text : List Char) :
    ℚ × List (List Char) × List (List Char) :=
  let jd_skills := skillTokens jd_text
  let resume_skills := skillTokens resume_text
  if jd_skills.isEmpty then (0, [], [])
  else
    let matched := resume_skills.filter (fun w => jd_skills.contains w)
    let missing := jd_skills.filter (fun w => !(resume_skills.contains w))
    ((matched.length : ℚ) / (jd_skills.length : ℚ) * 50, pySorted matched, pySorted missing)

end App

/-- Character at an index, out-of-range positions reading as a
non-word character (what the regex sees beyond the ends). -/
def charAt (text : List Char) (i : ℕ) : Char := text.getD i ' '

/-- Python regex `\b` at offset `i` of `text`: exactly one of the two
surrounding positions holds a word character. -/
def wbAt (text : List Char) (i : ℕ) : Bool :=
  (if i = 0 then false else isWordChar (charAt text (i - 1))) !=
    isWordChar (charAt text i)

/-- Test that `pat` occurs literally in `text` starting at the
current head. -/
def matchesAt : List Char → List Char → Bool
  | [], _ => true
  | _ :: _, [] => false
  | p :: ps, t :: ts => p == t && matchesAt ps ts

/-- Success of `re.search` on the escaped pattern wrapped in word
boundaries: `pat` occurs literally at some offset of `text` with a
word boundary on both sides. -/
def occursWhole (pat text : List Char) : Bool :=
  (List.range (text.length + 1)).any
    (fun i => matchesAt pat (text.drop i) && wbAt text i && wbAt text (i + pat.length))

namespace Api

/-- Function `get_hard_match_score` of `src/api/index.py`
(explicit-skill-list variant): returns `(score, matched, missing)`. -/
def get_hard_match_score (resume_text : List Char) (required_skills : List (List Char)) :
    ℚ × List (List Char) × List (List Char) :=
  if required_skills.isEmpty then (0, [], [])
  else
    let resume_text_lower := lowerChars resume_text
    let matched := required_skills.filter
      (fun skill => occursWhole (lowerChars skill) resume_text_lower)
    let missing := required_skills.filter (fun skill => !(matched.contains skill))
    ((matched.length : ℚ) / (required_skills.length : ℚ) * 50, matched, missing)

end Api

/-- Index of the last occurrence of `c` in `cs` (meaningful when
`cs.contains c`). -/
def lastIdxOf (c : Char) (cs : List Char) : ℕ :=
  cs.length - 1 - (cs.reverse.indexOf c)

/-- Match of the DOTALL regex search for a greedy brace span or a
greedy bracket span, as in `parse_llm_json_response`: scan left to
right; the first position holding `{` with a later `}` (or `[` with a
later `]`) starts the match, and the greedy `.*` extends it to the
last such closer in the text. -/
def jsonSpan : List Char → Option (List Char)
  | [] => Option.none
  | c :: rest =>
    if c = '{' ∧ rest.contains '}' then
      some (c :: rest.take (lastIdxOf '}' rest + 1))
    else if c = '[' ∧ rest.contains ']' then
      some (c :: rest.take (lastIdxOf ']' rest + 1))
    else jsonSpan rest

/-- Function `parse_llm_json_response` of `src/api/index.py`, with Python
`json.loads` abstracted as `loads` (`Option.none` = decode error).
Note `default_value or {}`: a falsy default is replaced by `{}`. -/
def parse_llm_json_response (loads : List Char → Option PyVal)
    (response_text : List Char) (default_value : PyVal) : PyVal :=
  match jsonSpan response_text with
  | Option.none => if truthy default_value then default_value else .dict []
  | some sub =>
    match loads sub with
    | some v => v
    | Option.none => if truthy default_value then default_value else .dict []

/-- The external collaborators the two handlers consume: the LLM
chain (one response oracle per prompt template; `Option.none` models
an exception raised by the call), `json.loads`, the PDF/DOCX text
extractors, and the best-effort candidate email/name regex helpers of
the handler bodies (plumbing the claims do not touch, modelled as
opaque text-derived fields). -/
structure Env where
  llmAvailable : Bool
  semanticResponse : List Char → List Char → Option (List Char)
  feedbackResponse : List Char → List Char → Option (List Char)
  analysisResponse : List Char → List Char → Option (List Char)
  loads : List Char → Option PyVal
  extractPdf : List ℕ → List Char
  extractDocx : List ℕ → List Char
  emailOf : List Char → List Char
  nameOf : List Char → List Char

/-- Leftmost match of the digit-run regex search in
`get_semantic_match_score`, parsed as a natural number: the first
maximal digit run. -/
def firstDigitRun (cs : List Char) : Option ℕ :=
  match cs.dropWhile (fun c => !c.isDigit) with
  | [] => Option.none
  | ds => some (digitsToNat (ds.takeWhile Char.isDigit))

namespace App

/-- Function `get_semantic_match_score` of `src/resume_versel/app.py`:
0.0 when
the LLM client is absent or the call raises; otherwise the first
integer of the response clamped to [0,100] and halved, falling back
to 25.0 when the response holds no digits. -/
def get_semantic_match_score (env : Env) (resume_text jd_text : List Char) : ℚ :=
  if !env.llmAvailable then 0
  else
    match env.semanticResponse resume_text jd_text with
    | Option.none => 0
    | some response =>
      let text := pyStrip response
      match firstDigitRun text with
      | some n =>
        let val : ℤ := max 0 (min (n : ℤ) 100)
        (val : ℚ) * (1 / 2)
      | Option.none => 25

/-- Function `get_feedback_and_suggestions` of
`src/resume_versel/app.py`. -/
def get_feedback_and_suggestions (env : Env) (resume_text jd_text : List Char) : List Char :=
  if !env.llmAvailable then "LLM not available. Please set the GOOGLE_API_KEY.".toList
  else
    match env.feedbackResponse resume_text jd_text with
    | Option.none => "Could not generate suggestions due to an error.".toList
    | some response => pyStrip response

end App

/-- Normalization `(int(score)/100)*50` followed by
`max(0, min(normalized_score, 50))` in
`src/api/index.py::get_llm_analysis`. -/
def normalizeScore (i : ℤ) : ℚ := max 0 (min ((i : ℚ) / 100 * 50) 50)

namespace Api

/-- Function `get_llm_analysis` of `src/api/index.py`: returns
`(score, suggestions)`; every failure path collapses to a zero score
with a fixed message. -/
def get_llm_analysis (env : Env) (resume_text jd_text : List Char) : ℚ × PyVal :=
  if !env.llmAvailable then (0, .str "LLM not available.")
  else
    match env.analysisResponse resume_text jd_text with
    | Option.none => (0, .str "Error during AI analysis.")
    | some response_text =>
      let parsed := parse_llm_json_response env.loads response_text
        (.dict [("score", .int 0), ("suggestions", .str "Error parsing AI feedback.")])
      match pyGet parsed "score" (.int 0) with
      | Option.none => (0, .str "Error during AI analysis.")
      | some sv =>
        match pyInt sv with
        | Option.none => (0, .str "Error during AI analysis.")
        | some i =>
          match pyGet parsed "suggestions" (.str "No suggestions generated.") with
          | Option.none => (0, .str "Error during AI analysis.")
          | some sug => (normalizeScore i, sug)

end Api

/-- Python `round` on the exact rational value: round half to even. -/
def pyRound (q : ℚ) : ℤ :=
  let f := ⌊q⌋
  let r := q - (f : ℚ)
  if r < 1 / 2 then f
  else if 1 / 2 < r then f + 1
  else if 2 ∣ f then f else f + 1

/-- The verdict expression of both handlers:
`"High" if t >= 80 else "Medium" if t >= 50 else "Low"`. -/
def verdict (total_score : ℤ) : String :=
  if total_score ≥ 80 then "High"
  else if total_score ≥ 50 then "Medium"
  else "Low"

/-- Python `str.endswith`: `suffix` is a suffix of `s`. -/
def endsWith (suffix s : List Char) : Bool :=
  matchesAt suffix.reverse s.reverse

/-- One resume entry of the request batch, after the transport-layer
plumbing (JSON field access, `content.split(',', 1)`, base64
decoding) that both handlers perform before the logic the spec
covers. -/
structure Entry where
  fileName : List Char
  fileBytes : List ℕ

/-- The extension dispatch both loops share:
`.pdf` → PDF extractor, `.docx` → DOCX extractor, anything else
leaves `resume_text` at `""`. -/
def extractFor (env : Env) (e : Entry) : List Char :=
  if endsWith ".pdf".toList (lowerChars e.fileName) then env.extractPdf e.fileBytes
  else if endsWith ".docx".toList (lowerChars e.fileName) then env.extractDocx e.fileBytes
  else []

/-- Function `format_skills_list` of `src/resume_versel/app.py`. -/
def format_skills_list (skills_list : List (List Char)) : List Char :=
  if skills_list.isEmpty then "None".toList
  else List.intercalate ", ".toList skills_list

namespace App

/-- One element of the `results` list built by
`src/resume_versel/app.py::handler.do_POST`. -/
structure MatchResult where
  resumeName : List Char
  candidateName : List Char
  candidateEmail : List Char
  score : ℤ
  verdict : String
  matchedSkills : List (List Char)
  matchedSkillsFormatted : List Char
  missingSkills : List (List Char)
  missingSkillsFormatted : List Char
  suggestions : List Char

/-- The loop body of `src/resume_versel/app.py::handler.do_POST`:
every entry produces a result — there is no skip for an unextractable
resume in this handler. -/
def processEntry (env : Env) (jd_text : List Char) (e : Entry) : MatchResult :=
  let resume_text := extractFor env e
  let hm := get_hard_match_score resume_text jd_text
  let semantic_score := get_semantic_match_score env resume_text jd_text
  let suggestions := get_feedback_and_suggestions env resume_text jd_text
  let total_score := pyRound (hm.1 + semantic_score)
  { resumeName := e.fileName
    candidateName := env.nameOf resume_text
    candidateEmail := env.emailOf resume_text
    score := total_score
    verdict := verdict total_score
    matchedSkills := hm.2.1
    matchedSkillsFormatted := format_skills_list hm.2.1
    missingSkills := hm.2.2
    missingSkillsFormatted := format_skills_list hm.2.2
    suggestions := suggestions }

/-- The `for res in resumes_data` loop of
`src/resume_versel/app.py::handler.do_POST`. -/
def processBatch (env : Env) (jd_text : List Char) (entries : List Entry) :
    List MatchResult :=
  entries.map (processEntry env jd_text)

end App

namespace Api

/-- One element of the `analysis_results` list built by
`src/api/index.py::handler.do_POST`. -/
structure MatchResult where
  candidateName : List Char
  candidateEmail : List Char
  score : ℤ
  verdict : String
  missingSkills : List (List Char)
  suggestions : PyVal

/-- The loop body of `src/api/index.py::handler.do_POST`:
`Option.none` is `continue` — the entry contributes no result when
`resume_text` stays empty (unsupported extension, or an extractor
returning `""`). `jd_skills` is the list extracted from the job
description by the LLM before the loop. -/
def processEntry (env : Env) (jd_text : List Char) (jd_skills : List (List Char))
    (e : Entry) : Option MatchResult :=
  let resume_text := extractFor env e
  if resume_text.isEmpty then Option.none
  else
    let hm := get_hard_match_score resume_text jd_skills
    let llm := get_llm_analysis env resume_text jd_text
    let total_score := pyRound (hm.1 + llm.1)
    some
      { candidateName := e.fileName
        candidateEmail := env.emailOf resume_text
        score := total_score
        verdict := verdict total_score
        missingSkills := hm.2.2
        suggestions := llm.2 }

/-- The `for res in resumes_data` loop of
`src/api/index.py::handler.do_POST`. -/
def processBatch (env : Env) (jd_text : List Char) (jd_skills : List (List Char))
    (entries : List Entry) : List MatchResult :=
  entries.filterMap (processEntry env jd_text jd_skills)

end Api

/-- What the spec calls a JSON-shaped substring: some `{` with a
later `}`, or some `[` with a later `]`, somewhere in the text. -/
def hasJsonShape (text : List Char) : Prop :=
  ∃ pre mid post a b, text = pre ++ a :: (mid ++ b :: post) ∧
    ((a = '{' ∧ b = '}') ∨ (a = '[' ∧ b = ']'))

/-- A `json.loads` stand-in that always reports a decode error. -/
def loadsNone : List Char → Option PyVal := fun _ => Option.none

/-- Concrete environment with no LLM client configured. -/
def envOff : Env where
  llmAvailable := false
  semanticResponse := fun _ _ => Option.none
  feedbackResponse := fun _ _ => Option.none
  analysisResponse := fun _ _ => Option.none
  loads := loadsNone
  extractPdf := fun _ => "python".toList
  extractDocx := fun _ => []
  emailOf := fun _ => []
  nameOf := fun _ => []

/-- Concrete environment whose LLM client is configured but whose
calls all raise. -/
def envOn : Env := { envOff with llmAvailable := true }

/-- Concrete environment whose semantic-scoring call answers `"85"`. -/
def envSem : Env := { envOn with semanticResponse := fun _ _ => some "85".toList }

/-- A resume entry with an unsupported file extension. -/
def entryTxt : Entry := { fileName := "resume.txt".toList, fileBytes := [] }

/-- A resume entry the PDF extractor handles. -/
def entryPdf : Entry := { fileName := "resume.pdf".toList, fileBytes := [] }

/-- The result record `Api.processEntry` produces for `entryPdf`
under `envOff` with job description `"python"` and no extracted
skills. -/
def apiResultPdf : Api.MatchResult where
  candidateName := entryPdf.fileName
  candidateEmail := envOff.emailOf (extractFor envOff entryPdf)
  score := pyRound ((Api.get_hard_match_score (extractFor envOff entryPdf) []).1 +
    (Api.get_llm_analysis envOff (extractFor envOff entryPdf) "python".toList).1)
  verdict := verdict (pyRound ((Api.get_hard_match_score (extractFor envOff entryPdf) []).1 +
    (Api.get_llm_analysis envOff (extractFor envOff entryPdf) "python".toList).1))
  missingSkills := (Api.get_hard_match_score (extractFor envOff entryPdf) []).2.2
  suggestions := (Api.get_llm_analysis envOff (extractFor envOff entryPdf) "python".toList).2

-- ======================================================================
-- Helper lemmas
-- ======================================================================

theorem mem_insertSorted {x a : List Char} {l : List (List Char)} :
    x ∈ insertSorted a l ↔ x = a ∨ x ∈ l := by
  induction l with
  | nil => simp [insertSorted]
  | cons b bs ih =>
    by_cases h : lexLe a b = true
    · simp [insertSorted, h]
    · simp only [insertSorted, h]
      simp [ih]
      tauto

theorem mem_pySorted {x : List Char} {l : List (List Char)} :
    x ∈ pySorted l ↔ x ∈ l := by
  induction l with
  | nil => simp [pySorted]
  | cons a as ih => simp [pySorted, mem_insertSorted, ih]

theorem splitRunsAux_word (cs : List Char) :
    ∀ acc, (∀ c ∈ acc, isWordChar c = true) →
      ∀ t ∈ splitRunsAux cs acc, ∀ c ∈ t, isWordChar c = true := by
  induction cs with
  | nil =>
    intro acc hacc t ht c hc
    by_cases h : acc.isEmpty
    · simp [splitRunsAux, h] at ht
    · simp only [splitRunsAux, h, Bool.false_eq_true, if_false, List.mem_singleton] at ht
      subst ht
      exact hacc c (List.mem_reverse.mp hc)
  | cons d rest ih =>
    intro acc hacc t ht c hc
    by_cases hw : isWordChar d = true
    · simp only [splitRunsAux, hw, if_true] at ht
      refine ih (d :: acc) ?_ t ht c hc
      intro e he
      rcases List.mem_cons.mp he with rfl | he
      · exact hw
      · exact hacc e he
    · simp only [splitRunsAux, hw, Bool.false_eq_true, if_false] at ht
      by_cases hemp : acc.isEmpty
      · simp only [hemp, if_true] at ht
        exact ih [] (by simp) t ht c hc
      · simp only [hemp, Bool.false_eq_true, if_false, List.mem_cons] at ht
        rcases ht with rfl | ht
        · exact hacc c (List.mem_reverse.mp hc)
        · exact ih [] (by simp) t ht c hc

theorem wordTokens_word {t : List Char} {cs : List Char} (ht : t ∈ wordTokens cs) :
    ∀ c ∈ t, isWordChar c = true :=
  splitRunsAux_word cs [] (by simp) t ht

theorem pyRound_nonneg {q : ℚ} (h : 0 ≤ q) : 0 ≤ pyRound q := by
  have hf : (0 : ℤ) ≤ ⌊q⌋ := Int.floor_nonneg.mpr h
  unfold pyRound
  dsimp only
  split
  · exact hf
  · split
    · omega
    · split
      · exact hf
      · omega

theorem pyRound_le_hundred {q : ℚ} (h : q ≤ 100) : pyRound q ≤ 100 := by
  have hf : ⌊q⌋ ≤ 100 := by
    have h100 : ⌊(100 : ℚ)⌋ = 100 := by
      norm_num
    calc ⌊q⌋ ≤ ⌊(100 : ℚ)⌋ := Int.floor_le_floor h
      _ = 100 := h100
  have hfle : (⌊q⌋ : ℚ) ≤ q := Int.floor_le q
  unfold pyRound
  dsimp only
  split
  · exact hf
  · rename_i h1
    push_neg at h1
    have hlt : (⌊q⌋ : ℚ) < q := by linarith
    have : (⌊q⌋ : ℚ) < 100 := lt_of_lt_of_le hlt h
    have h99 : ⌊q⌋ < 100 := by exact_mod_cast this
    split
    · omega
    · split
      · omega
      · omega

/-- Ratio score bound: `(m / j) * 50` lies in `[0, 50]` when
`0 < j` and `m ≤ j`. -/
theorem ratio_fifty_bounds {m j : ℕ} (hj : 0 < j) (hmj : m ≤ j) :
    0 ≤ ((m : ℚ) / (j : ℚ)) * 50 ∧ ((m : ℚ) / (j : ℚ)) * 50 ≤ 50 := by
  have hj0 : (0 : ℚ) < (j : ℚ) := by exact_mod_cast hj
  constructor
  · positivity
  · have hdiv : (m : ℚ) / (j : ℚ) ≤ 1 := (div_le_one hj0).mpr (by exact_mod_cast hmj)
    nlinarith

theorem App_skillTokens_nodup (text : List Char) : (App.skillTokens text).Nodup :=
  List.Nodup.filter _ (List.nodup_dedup _)

/-- The vocabulary-variant hard score lies in `[0, 50]`. -/
theorem App_hard_score_bounds (resume_text jd_text : List Char) :
    0 ≤ (App.get_hard_match_score resume_text jd_text).1 ∧
      (App.get_hard_match_score resume_text jd_text).1 ≤ 50 := by
  unfold App.get_hard_match_score
  by_cases hemp : (App.skillTokens jd_text).isEmpty = true
  · simp [hemp]
  · simp only [hemp, Bool.false_eq_true, if_false]
    have hj : 0 < (App.skillTokens jd_text).length := by
      cases h : App.skillTokens jd_text with
      | nil => rw [h] at hemp; simp at hemp
      | cons a as => simp [h]
    have hsub :
        (List.filter (fun w => (App.skillTokens jd_text).contains w)
            (App.skillTokens resume_text)) ⊆ App.skillTokens jd_text := by
      intro x hx
      have := (List.mem_filter.mp hx).2
      exact List.elem_iff.mp this
    have hnd :
        (List.filter (fun w => (App.skillTokens jd_text).contains w)
            (App.skillTokens resume_text)).Nodup :=
      List.Nodup.filter _ (App_skillTokens_nodup resume_text)
    have hlen := (List.Nodup.subperm hnd hsub).length_le
    exact ratio_fifty_bounds hj hlen

/-- The explicit-list-variant hard score lies in `[0, 50]`. -/
theorem Api_hard_score_bounds (resume_text : List Char) (required : List (List Char)) :
    0 ≤ (Api.get_hard_match_score resume_text required).1 ∧
      (Api.get_hard_match_score resume_text required).1 ≤ 50 := by
  unfold Api.get_hard_match_score
  by_cases hemp : required.isEmpty = true
  · simp [hemp]
  · simp only [hemp, Bool.false_eq_true, if_false]
    have hj : 0 < required.length := by
      cases h : required with
      | nil => rw [h] at hemp; simp at hemp
      | cons a as => simp [h]
    exact ratio_fifty_bounds hj (List.length_filter_le _ _)

/-- The app-variant semantic score lies in `[0, 50]`. -/
theorem App_semantic_bounds (env : Env) (resume_text jd_text : List Char) :
    0 ≤ App.get_semantic_match_score env resume_text jd_text ∧
      App.get_semantic_match_score env resume_text jd_text ≤ 50 := by
  unfold App.get_semantic_match_score
  split
  · norm_num
  · split
    · norm_num
    · dsimp only
      split
      · rename_i n _
        have h0 : (0 : ℤ) ≤ max 0 (min (n : ℤ) 100) := le_max_left 0 _
        have h100 : max 0 (min (n : ℤ) 100) ≤ 100 :=
          max_le (by norm_num) (min_le_right _ _)
        have hq0 : (0 : ℚ) ≤ ((max 0 (min (n : ℤ) 100) : ℤ) : ℚ) := by exact_mod_cast h0
        have hq100 : ((max 0 (min (n : ℤ) 100) : ℤ) : ℚ) ≤ 100 := by exact_mod_cast h100
        constructor
        · nlinarith
        · nlinarith
      · norm_num

/-- The normalized index-variant semantic score lies in `[0, 50]`. -/
theorem normalizeScore_bounds (i : ℤ) :
    0 ≤ normalizeScore i ∧ normalizeScore i ≤ 50 :=
  ⟨le_max_left 0 _, max_le (by norm_num) (min_le_right _ _)⟩

/-- The index-variant semantic score lies in `[0, 50]`. -/
theorem Api_llm_score_bounds (env : Env) (resume_text jd_text : List Char) :
    0 ≤ (Api.get_llm_analysis env resume_text jd_text).1 ∧
      (Api.get_llm_analysis env resume_text jd_text).1 ≤ 50 := by
  unfold Api.get_llm_analysis
  split
  · norm_num
  · split
    · norm_num
    · dsimp only
      split
      · norm_num
      · split
        · norm_num
        · split
          · norm_num
          · exact normalizeScore_bounds _

theorem contains_eq_true_iff {α : Type} [BEq α] [LawfulBEq α] {l : List α} {a : α} :
    l.contains a = true ↔ a ∈ l := List.elem_iff

/-- The regex search of `parse_llm_json_response` fails exactly when
the response has no JSON-shaped substring. -/
theorem jsonSpan_eq_none_iff (text : List Char) :
    jsonSpan text = Option.none ↔ ¬ hasJsonShape text := by
  induction text with
  | nil =>
    constructor
    · rintro - ⟨pre, mid, post, a, b, habs, -⟩
      exact absurd habs (by simp)
    · intro _
      rfl
  | cons c rest ih =>
    by_cases h1 : c = '{' ∧ rest.contains '}'
    · have hmem : '}' ∈ rest := contains_eq_true_iff.mp h1.2
      obtain ⟨s, t, hst⟩ := List.append_of_mem hmem
      have hshape : hasJsonShape (c :: rest) :=
        ⟨[], s, t, c, '}', by simp [hst], Or.inl ⟨h1.1, rfl⟩⟩
      simp only [jsonSpan, if_pos h1]
      simp [hshape]
    · by_cases h2 : c = '[' ∧ rest.contains ']'
      · have hmem : ']' ∈ rest := contains_eq_true_iff.mp h2.2
        obtain ⟨s, t, hst⟩ := List.append_of_mem hmem
        have hshape : hasJsonShape (c :: rest) :=
          ⟨[], s, t, c, ']', by simp [hst], Or.inr ⟨h2.1, rfl⟩⟩
        simp only [jsonSpan, if_pos h2, if_neg h1]
        simp [hshape]
      · have hstep : jsonSpan (c :: rest) = jsonSpan rest := by
          simp only [jsonSpan, if_neg h1, if_neg h2]
        have hsh : hasJsonShape (c :: rest) ↔ hasJsonShape rest := by
          constructor
          · rintro ⟨pre, mid, post, a, b, hdec, hab⟩
            cases pre with
            | nil =>
              simp only [List.nil_append, List.cons.injEq] at hdec
              obtain ⟨rfl, hrest⟩ := hdec
              rcases hab with ⟨ha, hb⟩ | ⟨ha, hb⟩
              · refine absurd ⟨ha, ?_⟩ h1
                refine contains_eq_true_iff.mpr ?_
                rw [hrest, hb]
                exact List.mem_append_right _ (List.mem_cons_self _ _)
              · refine absurd ⟨ha, ?_⟩ h2
                refine contains_eq_true_iff.mpr ?_
                rw [hrest, hb]
                exact List.mem_append_right _ (List.mem_cons_self _ _)
            | cons p pre2 =>
              simp only [List.cons_append, List.cons.injEq] at hdec
              exact ⟨pre2, mid, post, a, b, hdec.2, hab⟩
          · rintro ⟨pre, mid, post, a, b, hdec, hab⟩
            exact ⟨c :: pre, mid, post, a, b, by simp [hdec], hab⟩
        rw [hstep, ih]
        exact not_congr hsh.symm

-- ======================================================================
-- Claims
-- ======================================================================

/-- C1: in both pipeline variants the total score of every processed
resume equals `round(hard_score + semantic_score)`, each addend lies
in `[0, 50]`, and the total is an integer in `[0, 100]`. -/
theorem C1_total_score_in_range (env : Env) (jd_text : List Char)
    (jd_skills : List (List Char)) (e : Entry) :
    (0 ≤ (App.get_hard_match_score (extractFor env e) jd_text).1 ∧
     (App.get_hard_match_score (extractFor env e) jd_text).1 ≤ 50 ∧
     0 ≤ App.get_semantic_match_score env (extractFor env e) jd_text ∧
     App.get_semantic_match_score env (extractFor env e) jd_text ≤ 50 ∧
     (App.processEntry env jd_text e).score =
       pyRound ((App.get_hard_match_score (extractFor env e) jd_text).1 +
         App.get_semantic_match_score env (extractFor env e) jd_text) ∧
     0 ≤ (App.processEntry env jd_text e).score ∧
     (App.processEntry env jd_text e).score ≤ 100) ∧
    (∀ r, Api.processEntry env jd_text jd_skills e = some r →
      0 ≤ (Api.get_hard_match_score (extractFor env e) jd_skills).1 ∧
      (Api.get_hard_match_score (extractFor env e) jd_skills).1 ≤ 50 ∧
      0 ≤ (Api.get_llm_analysis env (extractFor env e) jd_text).1 ∧
      (Api.get_llm_analysis env (extractFor env e) jd_text).1 ≤ 50 ∧
      r.score = pyRound ((Api.get_hard_match_score (extractFor env e) jd_skills).1 +
        (Api.get_llm_analysis env (extractFor env e) jd_text).1) ∧
      0 ≤ r.score ∧ r.score ≤ 100) := by
  obtain ⟨hh0, hh1⟩ := App_hard_score_bounds (extractFor env e) jd_text
  obtain ⟨hs0, hs1⟩ := App_semantic_bounds env (extractFor env e) jd_text
  obtain ⟨ih0, ih1⟩ := Api_hard_score_bounds (extractFor env e) jd_skills
  obtain ⟨is0, is1⟩ := Api_llm_score_bounds env (extractFor env e) jd_text
  constructor
  · refine ⟨hh0, hh1, hs0, hs1, rfl, ?_, ?_⟩
    · exact pyRound_nonneg (by linarith)
    · exact pyRound_le_hundred (by linarith)
  · intro r hr
    unfold Api.processEntry at hr
    dsimp only at hr
    split at hr
    · exact absurd hr (by simp)
    · have hrec := Option.some.inj hr
      refine ⟨ih0, ih1, is0, is1, ?_, ?_, ?_⟩
      · rw [← hrec]
      · rw [← hrec]
        exact pyRound_nonneg (by linarith)
      · rw [← hrec]
        exact pyRound_le_hundred (by linarith)

theorem C1_total_score_in_range_witness :
    0 ≤ apiResultPdf.score ∧ apiResultPdf.score ≤ 100 := by
  have h := (C1_total_score_in_range envOff "python".toList [] entryPdf).2 apiResultPdf rfl
  exact ⟨h.2.2.2.2.2.1, h.2.2.2.2.2.2⟩

/-- C2: the verdict is a pure function of the total with fixed
thresholds: `total ≥ 80 → High`, `50 ≤ total < 80 → Medium`,
`total < 50 → Low`. -/
theorem C2_verdict_thresholds (total_score : ℤ) :
    (80 ≤ total_score → verdict total_score = "High") ∧
    (50 ≤ total_score → total_score < 80 → verdict total_score = "Medium") ∧
    (total_score < 50 → verdict total_score = "Low") := by
  unfold verdict
  refine ⟨?_, ?_, ?_⟩
  · intro h
    rw [if_pos h]
  · intro h1 h2
    rw [if_neg (by omega), if_pos h1]
  · intro h
    rw [if_neg (by omega), if_neg (by omega)]

theorem C2_verdict_thresholds_witness :
    verdict 85 = "High" ∧ verdict 60 = "Medium" ∧ verdict 10 = "Low" :=
  ⟨(C2_verdict_thresholds 85).1 (by decide),
   (C2_verdict_thresholds 60).2.1 (by decide) (by decide),
   (C2_verdict_thresholds 10).2.2 (by decide)⟩

/-- C3: the vocabulary-based hard-match scorer intersects the
tokenized, stop-word-free texts with the known-skill vocabulary,
returns the matched/missing split with score
`|matched| / |jd_skills| * 50` (0 with empty lists when `jd_skills`
is empty); on a job description with skills `{python, sql}` and a
resume containing only `python` it yields matched `["python"]`,
missing `["sql"]`, score 25. -/
theorem C3_vocabulary_hard_match :
    (App.skillTokens "We need Python and SQL".toList = ["python".toList, "sql".toList] ∧
     (App.get_hard_match_score "I use python daily".toList
        "We need Python and SQL".toList).1 = 25 ∧
     (App.get_hard_match_score "I use python daily".toList
        "We need Python and SQL".toList).2.1 = ["python".toList] ∧
     (App.get_hard_match_score "I use python daily".toList
        "We need Python and SQL".toList).2.2 = ["sql".toList]) ∧
    (∀ resume_text jd_text : List Char, App.skillTokens jd_text = [] →
      App.get_hard_match_score resume_text jd_text = (0, [], [])) ∧
    (∀ resume_text jd_text : List Char, App.skillTokens jd_text ≠ [] →
      (App.get_hard_match_score resume_text jd_text).1 =
        (((App.skillTokens resume_text).filter
            (fun w => (App.skillTokens jd_text).contains w)).length : ℚ) /
          ((App.skillTokens jd_text).length : ℚ) * 50 ∧
      (App.get_hard_match_score resume_text jd_text).2.1 =
        pySorted ((App.skillTokens resume_text).filter
          (fun w => (App.skillTokens jd_text).contains w)) ∧
      (App.get_hard_match_score resume_text jd_text).2.2 =
        pySorted ((App.skillTokens jd_text).filter
          (fun w => !((App.skillTokens resume_text).contains w)))) := by
  refine ⟨⟨by decide, ?_, by decide, by decide⟩, ?_, ?_⟩
  · have h : (App.get_hard_match_score "I use python daily".toList
        "We need Python and SQL".toList).1 = ((1 : ℕ) : ℚ) / ((2 : ℕ) : ℚ) * 50 := rfl
    rw [h]
    norm_num
  · intro resume_text jd_text h
    unfold App.get_hard_match_score
    dsimp only
    rw [if_pos (by simpa [List.isEmpty_iff] using h)]
  · intro resume_text jd_text h
    unfold App.get_hard_match_score
    dsimp only
    rw [if_neg (by simpa [List.isEmpty_iff] using h)]
    exact ⟨rfl, rfl, rfl⟩

theorem C3_vocabulary_hard_match_witness :
    App.get_hard_match_score "python".toList "nothing known here".toList = (0, [], []) ∧
    (App.get_hard_match_score "I use python daily".toList
        "We need Python and SQL".toList).2.1 =
      pySorted ((App.skillTokens "I use python daily".toList).filter
        (fun w => (App.skillTokens "We need Python and SQL".toList).contains w)) :=
  ⟨C3_vocabulary_hard_match.2.1 "python".toList "nothing known here".toList (by decide),
   (C3_vocabulary_hard_match.2.2 "I use python daily".toList
      "We need Python and SQL".toList (by decide)).2.1⟩

/-- C4: the explicit-skill-list hard-match scorer tests each required
skill for case-insensitive whole-word presence in the resume,
partitions the list into matched and missing, scores
`|matched| / |required| * 50`, and returns `(0, [], [])` for an empty
required list without dividing by zero. -/
theorem C4_explicit_hard_match (resume_text : List Char) (required : List (List Char)) :
    Api.get_hard_match_score resume_text [] = (0, [], []) ∧
    (required ≠ [] →
      (Api.get_hard_match_score resume_text required).1 =
        ((required.filter
            (fun s => occursWhole (lowerChars s) (lowerChars resume_text))).length : ℚ) /
          (required.length : ℚ) * 50 ∧
      (Api.get_hard_match_score resume_text required).2.1 =
        required.filter (fun s => occursWhole (lowerChars s) (lowerChars resume_text)) ∧
      (Api.get_hard_match_score resume_text required).2.2 =
        required.filter (fun s => !(occursWhole (lowerChars s) (lowerChars resume_text)))) ∧
    ((Api.get_hard_match_score "Skilled in SQL and python.".toList
        ["python".toList, "SQL".toList, "docker".toList]).2.1 =
      ["python".toList, "SQL".toList] ∧
     (Api.get_hard_match_score "Skilled in SQL and python.".toList
        ["python".toList, "SQL".toList, "docker".toList]).2.2 = ["docker".toList] ∧
     (Api.get_hard_match_score "Skilled in SQL and python.".toList
        ["python".toList, "SQL".toList, "docker".toList]).1 = 100 / 3 ∧
     (Api.get_hard_match_score "I know javascript".toList ["java".toList]).2.1 = []) := by
  refine ⟨rfl, ?_, by decide, by decide, ?_, by decide⟩
  · intro h
    unfold Api.get_hard_match_score
    dsimp only
    rw [if_neg (by simpa [List.isEmpty_iff] using h)]
    refine ⟨rfl, rfl, ?_⟩
    apply List.filter_congr
    intro s hs
    have hc : (required.filter
        (fun s => occursWhole (lowerChars s) (lowerChars resume_text))).contains s =
        occursWhole (lowerChars s) (lowerChars resume_text) := by
      by_cases hp : occursWhole (lowerChars s) (lowerChars resume_text) = true
      · rw [hp]
        exact contains_eq_true_iff.mpr (List.mem_filter.mpr ⟨hs, hp⟩)
      · have hp2 : occursWhole (lowerChars s) (lowerChars resume_text) = false := by
          revert hp
          cases occursWhole (lowerChars s) (lowerChars resume_text) <;> simp
        rw [hp2]
        refine Bool.eq_false_iff.mpr ?_
        intro hc2
        exact hp (List.mem_filter.mp (contains_eq_true_iff.mp hc2)).2
    rw [hc]
  · have h : (Api.get_hard_match_score "Skilled in SQL and python.".toList
        ["python".toList, "SQL".toList, "docker".toList]).1 =
        ((2 : ℕ) : ℚ) / ((3 : ℕ) : ℚ) * 50 := rfl
    rw [h]
    norm_num

theorem C4_explicit_hard_match_witness :
    (Api.get_hard_match_score "Skilled in SQL and python.".toList
        ["python".toList, "SQL".toList, "docker".toList]).2.2 =
      (["python".toList, "SQL".toList, "docker".toList]).filter
        (fun s => !(occursWhole (lowerChars s)
          (lowerChars "Skilled in SQL and python.".toList))) :=
  ((C4_explicit_hard_match "Skilled in SQL and python.".toList
      ["python".toList, "SQL".toList, "docker".toList]).2.1 (by decide)).2.2

/-- C5: in both variants the semantic score is clamped to `[0, 50]`
for every raw model output: the app variant halves the first integer
of the response after clamping it to `[0, 100]` (falling back to 25
or 0), and the index variant clamps `int(score)/100*50`, which equals
clamping the raw value to `[0, 100]` and rescaling by `raw/100*50`. -/
theorem C5_semantic_score_clamped (env : Env) (resume_text jd_text : List Char) :
    (0 ≤ App.get_semantic_match_score env resume_text jd_text ∧
     App.get_semantic_match_score env resume_text jd_text ≤ 50) ∧
    (0 ≤ (Api.get_llm_analysis env resume_text jd_text).1 ∧
     (Api.get_llm_analysis env resume_text jd_text).1 ≤ 50) ∧
    (∀ i : ℤ, normalizeScore i = max 0 (min ((i : ℚ)) 100) / 100 * 50) ∧
    (∀ response n, env.llmAvailable = true →
      env.semanticResponse resume_text jd_text = some response →
      firstDigitRun (pyStrip response) = some n →
      App.get_semantic_match_score env resume_text jd_text =
        ((max 0 (min ((n : ℤ)) 100) : ℤ) : ℚ) * (1 / 2)) := by
  refine ⟨App_semantic_bounds env resume_text jd_text,
    Api_llm_score_bounds env resume_text jd_text, ?_, ?_⟩
  · intro i
    unfold normalizeScore
    simp only [max_def, min_def]
    split_ifs <;> first | rfl | linarith
  · intro response n ha hresp hrun
    unfold App.get_semantic_match_score
    rw [ha]
    simp only [Bool.not_true, Bool.false_eq_true, if_false, hresp]
    rw [hrun]

theorem C5_semantic_score_clamped_witness :
    App.get_semantic_match_score envSem "r".toList "j".toList =
      ((max 0 (min ((85 : ℤ)) 100) : ℤ) : ℚ) * (1 / 2) :=
  (C5_semantic_score_clamped envSem "r".toList "j".toList).2.2.2
    "85".toList 85 rfl rfl (by decide)

/-- C6 counterexample: in `src/resume_versel/app.py` a resume entry
whose file name ends in neither `.pdf` nor `.docx` is NOT skipped —
the loop still appends a result entry for it (built from empty resume
text), so a batch holding only such an entry yields one result, not
zero. -/
theorem C6_counterexample :
    (App.processBatch envOff "We need python".toList [entryTxt]).length = 1 ∧
    (App.processBatch envOff "We need python".toList [entryTxt]).map
      (fun r => r.resumeName) = ["resume.txt".toList] := by
  exact ⟨rfl, rfl⟩

/-- C6 (amended): an entry whose lowercased file name ends in neither
`.pdf` nor `.docx` extracts to empty text in both loops; the
`api/index.py` loop then skips it, leaving the batch result exactly
the result of the batch without it, while the `resume_versel/app.py`
loop still appends a result entry for it. -/
theorem C6_unsupported_extension_skipped (env : Env) (jd_text : List Char)
    (jd_skills : List (List Char)) (pre post : List Entry) (e : Entry)
    (hp : endsWith ".pdf".toList (lowerChars e.fileName) = false)
    (hd : endsWith ".docx".toList (lowerChars e.fileName) = false) :
    extractFor env e = [] ∧
    Api.processBatch env jd_text jd_skills (pre ++ e :: post) =
      Api.processBatch env jd_text jd_skills (pre ++ post) ∧
    App.processBatch env jd_text (pre ++ e :: post) =
      App.processBatch env jd_text pre ++
        App.processEntry env jd_text e :: App.processBatch env jd_text post := by
  have hext : extractFor env e = [] := by
    unfold extractFor
    rw [hp, hd]
    simp
  have hskip : Api.processEntry env jd_text jd_skills e = Option.none := by
    unfold Api.processEntry
    rw [hext]
    simp
  refine ⟨hext, ?_, ?_⟩
  · unfold Api.processBatch
    rw [List.filterMap_append, List.filterMap_append, List.filterMap_cons_none hskip]
  · unfold App.processBatch
    rw [List.map_append, List.map_cons]

theorem C6_unsupported_extension_skipped_witness :
    Api.processBatch envOff "python".toList [] [entryTxt] = [] := by
  have h := C6_unsupported_extension_skipped envOff "python".toList [] [] [] entryTxt
    (by decide) (by decide)
  simpa using h.2.1

/-- C7: the semantic analyzers never surface a failure: with no LLM
client every call returns a zero score and the fixed unavailability
message, and an exception raised by the LLM call is converted to a
zero/fallback result with a descriptive message. -/
theorem C7_semantic_never_raises (env : Env) (resume_text jd_text : List Char) :
    (env.llmAvailable = false →
      Api.get_llm_analysis env resume_text jd_text = (0, .str "LLM not available.") ∧
      App.get_semantic_match_score env resume_text jd_text = 0 ∧
      App.get_feedback_and_suggestions env resume_text jd_text =
        "LLM not available. Please set the GOOGLE_API_KEY.".toList) ∧
    (env.llmAvailable = true →
      (env.analysisResponse resume_text jd_text = Option.none →
        Api.get_llm_analysis env resume_text jd_text =
          (0, .str "Error during AI analysis.")) ∧
      (env.semanticResponse resume_text jd_text = Option.none →
        App.get_semantic_match_score env resume_text jd_text = 0) ∧
      (env.feedbackResponse resume_text jd_text = Option.none →
        App.get_feedback_and_suggestions env resume_text jd_text =
          "Could not generate suggestions due to an error.".toList)) := by
  constructor
  · intro ha
    refine ⟨?_, ?_, ?_⟩
    · unfold Api.get_llm_analysis
      rw [ha]
      simp
    · unfold App.get_semantic_match_score
      rw [ha]
      simp
    · unfold App.get_feedback_and_suggestions
      rw [ha]
      simp
  · intro ha
    refine ⟨?_, ?_, ?_⟩
    · intro hr
      unfold Api.get_llm_analysis
      rw [ha, hr]
      simp
    · intro hr
      unfold App.get_semantic_match_score
      rw [ha, hr]
      simp
    · intro hr
      unfold App.get_feedback_and_suggestions
      rw [ha, hr]
      simp

theorem C7_semantic_never_raises_witness :
    Api.get_llm_analysis envOff "r".toList "j".toList = (0, .str "LLM not available.") ∧
    App.get_semantic_match_score envOff "r".toList "j".toList = 0 ∧
    Api.get_llm_analysis envOn "r".toList "j".toList =
      (0, .str "Error during AI analysis.") ∧
    App.get_semantic_match_score envOn "r".toList "j".toList = 0 := by
  have h1 := (C7_semantic_never_raises envOff "r".toList "j".toList).1 rfl
  have h2 := (C7_semantic_never_raises envOn "r".toList "j".toList).2 rfl
  exact ⟨h1.1, h1.2.1, h2.1 rfl, h2.2.1 rfl⟩

theorem contains_eq_false_iff {α : Type} [BEq α] [LawfulBEq α] {l : List α} {a : α} :
    l.contains a = false ↔ a ∉ l := by
  rw [← contains_eq_true_iff]
  cases h : l.contains a <;> simp

/-- C8 counterexample: `parse_llm_json_response` does not always
return the call-site default value — `default_value or` empty-dict replaces
a falsy default by `{}`, so with the empty-list default (the one
`extract_jd_skills` passes) a response without JSON yields the empty
dict, not the empty list. -/
theorem C8_counterexample :
    parse_llm_json_response loadsNone "no json here".toList (PyVal.list []) = PyVal.dict [] ∧
    PyVal.dict [] ≠ PyVal.list [] := by
  refine ⟨rfl, ?_⟩
  intro h
  exact PyVal.noConfusion h

/-- C8 (amended): the parser finds the first greedy `{...}`/`[...]`
substring (failing exactly when no JSON-shaped substring exists),
returns the parsed value on success, and on failure returns the
default when the default is truthy — but replaces a falsy default
(such as the empty list) by the empty dict; it never propagates an
exception. -/
theorem C8_parser_fallback (loads : List Char → Option PyVal) (text : List Char)
    (default_value : PyVal) :
    (jsonSpan text = Option.none ↔ ¬ hasJsonShape text) ∧
    (truthy default_value = true →
      (jsonSpan text = Option.none →
        parse_llm_json_response loads text default_value = default_value) ∧
      (∀ sub, jsonSpan text = some sub → loads sub = Option.none →
        parse_llm_json_response loads text default_value = default_value)) ∧
    (∀ sub v, jsonSpan text = some sub → loads sub = some v →
      parse_llm_json_response loads text default_value = v) ∧
    (truthy default_value = false → jsonSpan text = Option.none →
      parse_llm_json_response loads text default_value = .dict []) := by
  refine ⟨jsonSpan_eq_none_iff text, ?_, ?_, ?_⟩
  · intro ht
    constructor
    · intro hn
      simp [parse_llm_json_response, hn, ht]
    · intro sub hs hl
      simp [parse_llm_json_response, hs, hl, ht]
  · intro sub v hs hl
    simp [parse_llm_json_response, hs, hl]
  · intro ht hn
    simp [parse_llm_json_response, hn, ht]

theorem C8_parser_fallback_witness :
    parse_llm_json_response loadsNone "no json here".toList
      (PyVal.dict [("score", PyVal.int 0)]) = PyVal.dict [("score", PyVal.int 0)] :=
  ((C8_parser_fallback loadsNone "no json here".toList
      (PyVal.dict [("score", PyVal.int 0)])).2.1 rfl).1 (by decide)

/-- C9: in both variants the returned matched and missing collections
partition the skill requirement set — their union is `jd_skills`
(resp. the required list) as a set, and their intersection is
empty. -/
theorem C9_matched_missing_partition (resume_text jd_text : List Char)
    (required : List (List Char)) :
    ((App.get_hard_match_score resume_text jd_text).2.1.toFinset ∪
       (App.get_hard_match_score resume_text jd_text).2.2.toFinset =
       (App.skillTokens jd_text).toFinset ∧
     (App.get_hard_match_score resume_text jd_text).2.1.toFinset ∩
       (App.get_hard_match_score resume_text jd_text).2.2.toFinset = ∅) ∧
    ((Api.get_hard_match_score resume_text required).2.1.toFinset ∪
       (Api.get_hard_match_score resume_text required).2.2.toFinset =
       required.toFinset ∧
     (Api.get_hard_match_score resume_text required).2.1.toFinset ∩
       (Api.get_hard_match_score resume_text required).2.2.toFinset = ∅) := by
  constructor
  · by_cases hemp : (App.skillTokens jd_text).isEmpty = true
    · have hnil : App.skillTokens jd_text = [] := List.isEmpty_iff.mp hemp
      unfold App.get_hard_match_score
      dsimp only
      rw [if_pos hemp]
      simp [hnil]
    · unfold App.get_hard_match_score
      dsimp only
      rw [if_neg hemp]
      dsimp only
      constructor
      · ext x
        simp only [Finset.mem_union, List.mem_toFinset, mem_pySorted, List.mem_filter,
          contains_eq_true_iff, Bool.not_eq_true', contains_eq_false_iff]
        constructor
        · rintro (⟨hres, hjd⟩ | ⟨hjd, hnres⟩) <;> exact hjd
        · intro hjd
          by_cases hres : x ∈ App.skillTokens resume_text
          · exact Or.inl ⟨hres, hjd⟩
          · exact Or.inr ⟨hjd, hres⟩
      · rw [Finset.eq_empty_iff_forall_not_mem]
        intro x hx
        simp only [Finset.mem_inter, List.mem_toFinset, mem_pySorted, List.mem_filter,
          contains_eq_true_iff, Bool.not_eq_true', contains_eq_false_iff] at hx
        exact hx.2.2 hx.1.1
  · by_cases hemp : required.isEmpty = true
    · have hnil : required = [] := List.isEmpty_iff.mp hemp
      unfold Api.get_hard_match_score
      dsimp only
      rw [if_pos hemp]
      simp [hnil]
    · unfold Api.get_hard_match_score
      dsimp only
      rw [if_neg hemp]
      dsimp only
      constructor
      · ext x
        simp only [Finset.mem_union, List.mem_toFinset, List.mem_filter,
          Bool.not_eq_true', contains_eq_false_iff]
        constructor
        · rintro (⟨hreq, -⟩ | ⟨hreq, -⟩) <;> exact hreq
        · intro hreq
          by_cases hocc : occursWhole (lowerChars x) (lowerChars resume_text) = true
          · exact Or.inl ⟨hreq, hocc⟩
          · exact Or.inr ⟨hreq, fun hc => hocc hc.2⟩
      · rw [Finset.eq_empty_iff_forall_not_mem]
        intro x hx
        simp only [Finset.mem_inter, List.mem_toFinset, List.mem_filter,
          Bool.not_eq_true', contains_eq_false_iff] at hx
        exact hx.2.2 hx.1

/-- Any candidate string holding a non-word character never appears
among the vocabulary-variant skill sets or in the matched/missing
lists, for any pair of texts. -/
theorem notWordPhrase_unreachable (p : List Char)
    (hp : ¬ ∀ c ∈ p, isWordChar c = true) (resume_text jd_text : List Char) :
    p ∉ App.skillTokens jd_text ∧ p ∉ App.skillTokens resume_text ∧
    p ∉ (App.get_hard_match_score resume_text jd_text).2.1 ∧
    p ∉ (App.get_hard_match_score resume_text jd_text).2.2 := by
  have hnot : ∀ text, p ∉ App.skillTokens text := by
    intro text hmem
    unfold App.skillTokens at hmem
    have htok : p ∈ wordTokens (lowerChars text) :=
      List.mem_dedup.mp (List.mem_filter.mp hmem).1
    exact hp (wordTokens_word htok)
  refine ⟨hnot jd_text, hnot resume_text, ?_, ?_⟩
  all_goals
    intro hmem
    unfold App.get_hard_match_score at hmem
    by_cases hemp : (App.skillTokens jd_text).isEmpty = true
  · rw [if_pos hemp] at hmem
    simp at hmem
  · rw [if_neg hemp] at hmem
    dsimp only at hmem
    rw [mem_pySorted] at hmem
    exact hnot resume_text (List.mem_filter.mp hmem).1
  · rw [if_pos hemp] at hmem
    simp at hmem
  · rw [if_neg hemp] at hmem
    dsimp only at hmem
    rw [mem_pySorted] at hmem
    exact hnot jd_text (List.mem_filter.mp hmem).1

/-- C10: the multi-word vocabulary entries `machine learning`,
`deep learning` and `project management` contain a space, which
tokenization never leaves inside a token, so they can never appear in
`jd_skills`, `resume_skills`, `matched`, or `missing` for any pair of
input texts. -/
theorem C10_multiword_skills_unreachable (resume_text jd_text : List Char) :
    ("machine learning".toList ∈ KNOWN_SKILLS ∧
     "deep learning".toList ∈ KNOWN_SKILLS ∧
     "project management".toList ∈ KNOWN_SKILLS) ∧
    ("machine learning".toList ∉ App.skillTokens jd_text ∧
     "machine learning".toList ∉ App.skillTokens resume_text ∧
     "machine learning".toList ∉ (App.get_hard_match_score resume_text jd_text).2.1 ∧
     "machine learning".toList ∉ (App.get_hard_match_score resume_text jd_text).2.2) ∧
    ("deep learning".toList ∉ App.skillTokens jd_text ∧
     "deep learning".toList ∉ App.skillTokens resume_text ∧
     "deep learning".toList ∉ (App.get_hard_match_score resume_text jd_text).2.1 ∧
     "deep learning".toList ∉ (App.get_hard_match_score resume_text jd_text).2.2) ∧
    ("project management".toList ∉ App.skillTokens jd_text ∧
     "project management".toList ∉ App.skillTokens resume_text ∧
     "project management".toList ∉ (App.get_hard_match_score resume_text jd_text).2.1 ∧
     "project management".toList ∉ (App.get_hard_match_score resume_text jd_text).2.2) :=
  ⟨⟨by decide, by decide, by decide⟩,
   notWordPhrase_unreachable "machine learning".toList (by decide) resume_text jd_text,
   notWordPhrase_unreachable "deep learning".toList (by decide) resume_text jd_text,
   notWordPhrase_unreachable "project management".toList (by decide) resume_text jd_text⟩
